import Mathlib

/-!
# Verification of `interactive_visuals.py` (Interactive_Visuals class)

Shallow embedding of the chart builders of `src/interactive_visuals.py`:
`histogram`, `barplot`, `scatterplot`, `linechart`, `control_chart_ADTK`.

Conventions of the embedding:
* pandas column values and Python floats are modelled as exact rationals (`ℚ`);
  Python float literals such as `.33` are modelled as the rationals they denote.
* Categorical values (e.g. the scenario categories `A`, `B`) are encoded as
  rationals (`A ↦ 0`, `B ↦ 1`).
* A pandas `DataFrame` is an association list of named columns; the control
  chart frame additionally carries its index.
* Python object mutation (`df[c] = ...`, `df.columns = ...`) is modelled with an
  explicit heap of frames: references are heap indices, in-place operations are
  `List.set` on the heap, and pandas operations that return fresh objects
  (`reset_index`, the copy made by `clean_varname`, boolean-mask filtering)
  allocate new heap cells.
* `utils.clean_varname` is imported by the source (`from utils import *`) but
  `utils.py` is not part of the repository sources; it is modelled from the
  spec (see `cleanName` and `clean_varname` below).
* `np.round` / `pandas.Series.round` rounds half to even; `rhe` below is its
  translation for rationals.
-/

namespace Viz

/-! ## Bar-plot aggregation (source lines 116-121 and 175-179)

The color path of `barplot` runs

  df_stack = self._df.groupby([x,color]).size().reset_index()
  df_stack['Percentage'] = self._df.groupby([x, color]).size().groupby(level = 0)
      .apply(lambda x: 100 * x/float(x.sum())).values
  df_stack.columns = [x, color, 'Count', 'Percentage']
  df_stack['Percentage'] = round(df_stack['Percentage'], 2)

and the no-color path runs the same pipeline with `[x]` as the grouping key and
without the final rounding step.  The rows of the grouped frame are the
distinct keys in ascending (pandas `groupby` sorted) order, each with its
multiplicity in the data. -/

/-- Insert an element into a list sorted by the boolean relation `le`. -/
def insertLe {α : Type} (le : α → α → Bool) (k : α) : List α → List α
  | [] => [k]
  | j :: js => if le k j then k :: j :: js else j :: insertLe le k js

/-- Insertion sort by the boolean relation `le`; models the sorted key order
produced by `pandas.groupby`. -/
def sortLe {α : Type} (le : α → α → Bool) (l : List α) : List α :=
  l.foldr (insertLe le) []

/-- The distinct elements of a list (pandas grouping keys before sorting). -/
def dedupKeys {α : Type} [DecidableEq α] : List α → List α
  | [] => []
  | a :: as => if a ∈ as then dedupKeys as else a :: dedupKeys as

/-- Lexicographic order on `(x, color)` grouping keys. -/
def keyLe (a b : ℚ × ℚ) : Bool :=
  decide (a.1 < b.1 ∨ (a.1 = b.1 ∧ a.2 ≤ b.2))

/-- The distinct `(x, color)` keys of `df.groupby([x, color])`, in pandas'
sorted order. -/
def groupKeys (rows : List (ℚ × ℚ)) : List (ℚ × ℚ) :=
  sortLe keyLe (dedupKeys rows)

/-- `x.sum()` of the level-0 group of the size series that contains key
`(a, _)`: the total count of rows whose primary value is `a`, summed over the
grouped keys. -/
def groupTotal (rows : List (ℚ × ℚ)) (a : ℚ) : ℚ :=
  (((groupKeys rows).filter (fun j => decide (j.1 = a))).map
    (fun j => (rows.count j : ℚ))).sum

/-- The unrounded percentage `100 * x / float(x.sum())` for grouping key `k`
(source line 118). -/
def rawPct (rows : List (ℚ × ℚ)) (k : ℚ × ℚ) : ℚ :=
  100 * (rows.count k : ℚ) / groupTotal rows k.1

/-- Round half to even to the nearest integer: the rounding of
`numpy.round` (used by `round(Series, 2)`), on exact rationals. -/
def rhe (q : ℚ) : ℤ :=
  if q - ⌊q⌋ < 1/2 then ⌊q⌋
  else if 1/2 < q - ⌊q⌋ then ⌊q⌋ + 1
  else if ⌊q⌋ % 2 = 0 then ⌊q⌋ else ⌊q⌋ + 1

/-- `round(·, 2)` of pandas / numpy: round half to even at two decimals. -/
def roundq2 (q : ℚ) : ℚ := (rhe (q * 100) : ℚ) / 100

/-- Round half up at two decimals: the alternative convention the claim
distinguishes from the one the code uses. -/
def roundHalfUp2 (q : ℚ) : ℚ := (⌊q * 100 + 1/2⌋ : ℚ) / 100

/-- The aggregate frame of the color path after line 120 (columns renamed,
percentages not yet rounded): rows `(x value, color value, Count, Percentage)`. -/
def aggColorRaw (rows : List (ℚ × ℚ)) : List (ℚ × ℚ × ℕ × ℚ) :=
  (groupKeys rows).map (fun k => (k.1, k.2, rows.count k, rawPct rows k))

/-- The aggregate frame of the color path after line 121
(`df_stack['Percentage'] = round(df_stack['Percentage'], 2)`). -/
def aggColor (rows : List (ℚ × ℚ)) : List (ℚ × ℚ × ℕ × ℚ) :=
  (aggColorRaw rows).map (fun e => (e.1, e.2.1, e.2.2.1, roundq2 e.2.2.2))

/-- The `Percentage` entries of the color-path aggregate whose primary value is
`a`. -/
def pctsForPrimary (rows : List (ℚ × ℚ)) (a : ℚ) : List ℚ :=
  ((aggColor rows).filter (fun e => decide (e.1 = a))).map (fun e => e.2.2.2)

/-- The unrounded `Percentage` entries (line 118) whose primary value is `a`. -/
def rawPctsForPrimary (rows : List (ℚ × ℚ)) (a : ℚ) : List ℚ :=
  ((aggColorRaw rows).filter (fun e => decide (e.1 = a))).map (fun e => e.2.2.2)

/-- The distinct keys of `df.groupby([x])` in sorted order (no-color path,
line 176). -/
def groupKeys1 (xs : List ℚ) : List ℚ :=
  sortLe (fun a b => decide (a ≤ b)) (dedupKeys xs)

/-- `x.sum()` of the level-0 group of the size series containing key `a`
(no-color path, line 177).  The size series is indexed by the distinct values
themselves, so the level-0 group of `a` contains exactly the one entry at `a`. -/
def groupTotal1 (xs : List ℚ) (a : ℚ) : ℚ :=
  (((groupKeys1 xs).filter (fun j => decide (j = a))).map
    (fun j => (xs.count j : ℚ))).sum

/-- The unrounded percentage of the no-color path (lines 177-178); there is no
rounding step in this path. -/
def rawPct1 (xs : List ℚ) (a : ℚ) : ℚ :=
  100 * (xs.count a : ℚ) / groupTotal1 xs a

/-- The aggregate frame of the no-color path after line 179: rows
`(x value, Count, Percentage)`. -/
def aggNoColor (xs : List ℚ) : List (ℚ × ℕ × ℚ) :=
  (groupKeys1 xs).map (fun a => (a, xs.count a, rawPct1 xs a))

/-! ### Lemmas about the aggregation -/

theorem insertLe_perm {α : Type} (le : α → α → Bool) (k : α) (l : List α) :
    List.Perm (insertLe le k l) (k :: l) := by
  induction l with
  | nil => simp [insertLe]
  | cons j js ih =>
    simp only [insertLe]
    split
    · exact List.Perm.refl _
    · exact (ih.cons j).trans (List.Perm.swap k j js)

theorem sortLe_perm {α : Type} (le : α → α → Bool) (l : List α) :
    List.Perm (sortLe le l) l := by
  induction l with
  | nil => simp [sortLe]
  | cons a as ih =>
    simp only [sortLe, List.foldr_cons]
    exact (insertLe_perm le a _).trans (ih.cons a)

theorem mem_dedupKeys {α : Type} [DecidableEq α] {a : α} {l : List α} :
    a ∈ dedupKeys l ↔ a ∈ l := by
  induction l with
  | nil => simp [dedupKeys]
  | cons b bs ih =>
    simp only [dedupKeys]
    split
    · rename_i hb
      rw [ih, List.mem_cons]
      constructor
      · exact Or.inr
      · rintro (rfl | h)
        · exact hb
        · exact h
    · simp [ih]

theorem mem_groupKeys {k : ℚ × ℚ} {rows : List (ℚ × ℚ)} :
    k ∈ groupKeys rows ↔ k ∈ rows := by
  unfold groupKeys
  rw [(sortLe_perm keyLe _).mem_iff, mem_dedupKeys]

/-- `rhe` is within one half of its argument. -/
theorem abs_rhe_sub (q : ℚ) : |(rhe q : ℚ) - q| ≤ 1/2 := by
  have h0 : (⌊q⌋ : ℚ) ≤ q := Int.floor_le q
  have h1 : q < ⌊q⌋ + 1 := Int.lt_floor_add_one q
  unfold rhe
  split_ifs with ha hb hc
  · rw [abs_le]; constructor <;> linarith
  · rw [abs_le]; push_cast; constructor <;> linarith
  · rw [abs_le]; constructor <;> linarith
  · rw [abs_le]; push_cast; constructor <;> linarith

/-- Rounding to two decimals moves a rational by at most `1/200`. -/
theorem abs_roundq2_sub (q : ℚ) : |roundq2 q - q| ≤ 1/200 := by
  have h := abs_rhe_sub (q * 100)
  have heq : roundq2 q - q = ((rhe (q * 100) : ℚ) - q * 100) / 100 := by
    simp only [roundq2]; ring
  rw [heq, abs_div]
  rw [show |(100 : ℚ)| = 100 by norm_num]
  linarith

/-- Rounding each entry of a list to two decimals moves the sum by at most
`1/200` per entry. -/
theorem sum_map_roundq2_bound (l : List ℚ) :
    |(l.map roundq2).sum - l.sum| ≤ l.length * (1/200) := by
  induction l with
  | nil => simp
  | cons a as ih =>
    simp only [List.map_cons, List.sum_cons, List.length_cons]
    have h := abs_roundq2_sub a
    have tri : |roundq2 a + (as.map roundq2).sum - (a + as.sum)|
        ≤ |roundq2 a - a| + |(as.map roundq2).sum - as.sum| := by
      have : roundq2 a + (as.map roundq2).sum - (a + as.sum)
          = (roundq2 a - a) + ((as.map roundq2).sum - as.sum) := by ring
      rw [this]
      exact abs_add _ _
    have : |roundq2 a + (as.map roundq2).sum - (a + as.sum)|
        ≤ 1/200 + as.length * (1/200) := le_trans tri (add_le_add h ih)
    push_cast
    linarith

/-- The unrounded percentage entries for primary value `a` are the raw
percentages of the grouping keys whose primary value is `a`. -/
theorem rawPctsForPrimary_eq (rows : List (ℚ × ℚ)) (a : ℚ) :
    rawPctsForPrimary rows a
      = ((groupKeys rows).filter (fun k => decide (k.1 = a))).map (rawPct rows) := by
  unfold rawPctsForPrimary aggColorRaw
  rw [List.filter_map, List.map_map]
  rfl

/-- The rounded percentage entries are the unrounded ones rounded entrywise. -/
theorem pctsForPrimary_eq (rows : List (ℚ × ℚ)) (a : ℚ) :
    pctsForPrimary rows a = (rawPctsForPrimary rows a).map roundq2 := by
  unfold pctsForPrimary rawPctsForPrimary aggColor
  rw [List.filter_map, List.map_map, List.map_map]
  rfl

/-- Within one primary value that occurs in the data, the unrounded color-path
percentages sum to exactly 100. -/
theorem rawPcts_sum (rows : List (ℚ × ℚ)) (a : ℚ) (h : ∃ r ∈ rows, r.1 = a) :
    (rawPctsForPrimary rows a).sum = 100 := by
  obtain ⟨r, hr, hra⟩ := h
  rw [rawPctsForPrimary_eq]
  have hmap : ((groupKeys rows).filter (fun k => decide (k.1 = a))).map (rawPct rows)
      = ((groupKeys rows).filter (fun k => decide (k.1 = a))).map
          (fun k => (rows.count k : ℚ) * (100 / groupTotal rows a)) := by
    apply List.map_congr_left
    intro k hk
    have hk1 : k.1 = a := by simpa using (List.mem_filter.mp hk).2
    simp only [rawPct, hk1]
    ring
  rw [hmap, List.sum_map_mul_right]
  have hS : (((groupKeys rows).filter (fun k => decide (k.1 = a))).map
      (fun k => (rows.count k : ℚ))).sum = groupTotal rows a := rfl
  rw [hS]
  have hrK : r ∈ (groupKeys rows).filter (fun k => decide (k.1 = a)) :=
    List.mem_filter.mpr ⟨mem_groupKeys.mpr hr, by simpa using hra⟩
  have hpos : (0:ℚ) < groupTotal rows a := by
    have h1 : (rows.count r : ℚ) ≤ (((groupKeys rows).filter
        (fun k => decide (k.1 = a))).map (fun k => (rows.count k : ℚ))).sum := by
      apply List.single_le_sum
      · intro x hx
        obtain ⟨k, _, rfl⟩ := List.mem_map.mp hx
        positivity
      · exact List.mem_map_of_mem _ hrK
    rw [hS] at h1
    have h2 : 0 < rows.count r := List.count_pos_iff.mpr hr
    have h3 : (1:ℚ) ≤ (rows.count r : ℚ) := by exact_mod_cast h2
    linarith
  field_simp

end Viz

/-! ## C1 -/

/-- **C1.** The claim states that with no secondary color column the aggregate
percentage of each primary category is `100 × count / total rows` and that the
percentages sum to 100.  The code instead groups the per-category size series
by its own (unique) index, so every group is a singleton and every percentage
is 100.  Evaluating the embedded no-color aggregation at the failing input
`x = [1, 1, 2]` yields percentages `[100, 100]`, which sum to 200, not 100. -/
theorem barplot_noColor_percentage_all_100 :
    Viz.aggNoColor [1, 1, 2] = [(1, 2, 100), (2, 1, 100)] ∧
      ((Viz.aggNoColor [1, 1, 2]).map (fun e => e.2.2)).sum = 200 := by
  norm_num [Viz.aggNoColor, Viz.groupKeys1, Viz.sortLe, Viz.insertLe, Viz.dedupKeys,
    Viz.rawPct1, Viz.groupTotal1, List.count_cons, List.filter, List.foldr]

/-! ## C2 -/

/-- **C2 counterexample.** The claim asserts that within each primary value the
rounded percentages always sum to 100 within ±0.01.  With one primary value and
six secondary values of one row each, every raw percentage is 100/6 = 16.666…,
which rounds to 16.67, so the within-primary sum is 100.02: off by 0.02. -/
theorem barplot_color_pcts_sum_tolerance_counterexample :
    (Viz.pctsForPrimary [(1,0),(1,1),(1,2),(1,3),(1,4),(1,5)] 1).sum = 5001/50 ∧
      ¬ |(Viz.pctsForPrimary [(1,0),(1,1),(1,2),(1,3),(1,4),(1,5)] 1).sum - 100| ≤ 1/100 := by
  have hsum : (Viz.pctsForPrimary [(1,0),(1,1),(1,2),(1,3),(1,4),(1,5)] 1).sum = 5001/50 := by
    norm_num [Viz.pctsForPrimary, Viz.aggColor, Viz.aggColorRaw, Viz.groupKeys, Viz.sortLe,
      Viz.insertLe, Viz.dedupKeys, Viz.keyLe, Viz.rawPct, Viz.groupTotal, Viz.roundq2, Viz.rhe,
      List.count_cons, Prod.mk.injEq, -Prod.mk_one_one, -Prod.mk_zero_zero]
    norm_num [Int.fract]
  refine ⟨hsum, ?_⟩
  rw [hsum]
  rw [show (5001:ℚ)/50 - 100 = 1/50 by norm_num]
  rw [abs_of_pos (by norm_num : (0:ℚ) < 1/50)]
  norm_num

set_option maxRecDepth 4000 in
/-- **C2 (amended).** For every dataset with a secondary color column,
`barplot`'s aggregate has one row per `(primary, secondary)` combination with
its count and the percentage `100 × count / total-within-primary` rounded to
two decimals (half to even); within each primary value present in the data the
*unrounded* percentages sum to exactly 100, and the rounded percentages sum to
100 within ±0.005 per secondary combination of that primary (the claimed
uniform ±0.01 fails once a primary has more than two secondary values, see the
counterexample).  The concrete scenario `x = [1,1,1,2,2,3]`,
`c = [A,A,B,A,B,B]` (encoded `A ↦ 0`, `B ↦ 1`) yields counts 2,1 and
percentages 66.67, 33.33 for primary 1, and counts 1,1 with percentages
50.0, 50.0 for primary 2. -/
theorem barplot_color_percentages_within_primary :
    Viz.aggColor [(1,0),(1,0),(1,1),(2,0),(2,1),(3,1)]
        = [(1,0,2,6667/100),(1,1,1,3333/100),(2,0,1,50),(2,1,1,50),(3,1,1,100)] ∧
    ∀ (rows : List (ℚ × ℚ)) (a : ℚ), (∃ r ∈ rows, r.1 = a) →
      (Viz.rawPctsForPrimary rows a).sum = 100 ∧
      |(Viz.pctsForPrimary rows a).sum - 100|
        ≤ (Viz.pctsForPrimary rows a).length * (1/200) := by
  constructor
  · norm_num [Viz.aggColor, Viz.aggColorRaw, Viz.groupKeys, Viz.sortLe, Viz.insertLe,
      Viz.dedupKeys, Viz.keyLe, Viz.rawPct, Viz.groupTotal, Viz.roundq2, Viz.rhe,
      List.count_cons, Prod.mk.injEq, -Prod.mk_one_one, -Prod.mk_zero_zero]
    norm_num [Int.fract]
  · intro rows a h
    refine ⟨Viz.rawPcts_sum rows a h, ?_⟩
    have hb := Viz.sum_map_roundq2_bound (Viz.rawPctsForPrimary rows a)
    rw [Viz.rawPcts_sum rows a h] at hb
    rw [Viz.pctsForPrimary_eq]
    simpa using hb

/-- Witness for C2: the amended theorem applied to the scenario dataset at
primary value 1. -/
theorem barplot_color_percentages_within_primary_witness :
    (Viz.rawPctsForPrimary [(1,0),(1,0),(1,1),(2,0),(2,1),(3,1)] 1).sum = 100 :=
  (barplot_color_percentages_within_primary.2 [(1,0),(1,0),(1,1),(2,0),(2,1),(3,1)] 1
    ⟨(1,0), List.mem_cons_self _ _, rfl⟩).1

/-! ## C10 -/

/-- **C10.** The color-path percentage is rounded at two decimals by the host
rounding `round(Series, 2)`, whose translation `rhe` rounds half to even: at
every exact half, the even neighbour is chosen.  This differs from
round-half-up on some count ratios: one secondary category with 1 row out of 32
within its primary has raw percentage 3.125, which the aggregate stores as 3.12
while round-half-up would store 3.13. -/
theorem barplot_color_rounding_half_to_even :
    (∀ n : ℤ, Viz.rhe ((n : ℚ) + 1/2) = if n % 2 = 0 then n else n + 1) ∧
    Viz.pctsForPrimary ((1,0) :: List.replicate 31 (1,1)) 1 = [312/100, 9688/100] ∧
    Viz.roundHalfUp2 (Viz.rawPct ((1,0) :: List.replicate 31 (1,1)) (1,0)) = 313/100 ∧
    (312 : ℚ)/100 ≠ 313/100 := by
  refine ⟨?_, ?_, ?_, by norm_num⟩
  · intro n
    have hf : (⌊(n : ℚ) + 1/2⌋ : ℤ) = n := by
      rw [add_comm, Int.floor_add_int]
      norm_num
    unfold Viz.rhe
    rw [hf]
    rw [show ((n:ℚ) + 1/2 - (n:ℚ)) = 1/2 from by ring]
    norm_num
  · norm_num [Viz.pctsForPrimary, Viz.aggColor, Viz.aggColorRaw, Viz.groupKeys, Viz.sortLe,
      Viz.insertLe, Viz.dedupKeys, Viz.keyLe, Viz.rawPct, Viz.groupTotal, Viz.roundq2, Viz.rhe,
      List.count_cons, List.replicate, Prod.mk.injEq, -Prod.mk_one_one, -Prod.mk_zero_zero]
    norm_num [Int.fract]
  · norm_num [Viz.roundHalfUp2, Viz.rawPct, Viz.groupTotal, Viz.groupKeys, Viz.sortLe,
      Viz.insertLe, Viz.dedupKeys, Viz.keyLe, List.count_cons,
      List.replicate, Prod.mk.injEq, -Prod.mk_one_one, -Prod.mk_zero_zero]

namespace Viz

/-! ## Column normalizer (modelled from the spec)

`clean_varname` is imported by the source via `from utils import *`;
`utils.py` is not part of the repository sources, so the normalizer is
modelled from the spec (§2, §4.1): it "collapses whitespace and punctuation
into a portable variable name", trimming and collapsing separators, is
idempotent, and returns the cleaned name together with a copy of the dataset
carrying a column under the cleaned name, leaving the original column
intact.  Concretely: characters that are not alphanumeric are separators;
each maximal interior run of separators becomes one underscore, and leading
and trailing separator runs are dropped. -/

/-- Modelled from the spec: map a character to itself if alphanumeric, and to
the separator placeholder otherwise. -/
def sanitizeChar (c : Char) : Char := if c.isAlphanum then c else '_'

/-- Split a character list at underscores (chunks may be empty). -/
def splitUnd : List Char → List (List Char)
  | [] => [[]]
  | c :: cs =>
    if c = '_' then [] :: splitUnd cs
    else
      match splitUnd cs with
      | [] => [[c]]
      | p :: ps => (c :: p) :: ps

/-- Join chunks with single underscores. -/
def joinUnd : List (List Char) → List Char
  | [] => []
  | [p] => p
  | p :: ps => p ++ '_' :: joinUnd ps

/-- Modelled from the spec: the cleaned form of a column name.  Non-alphanumeric
characters are unified into underscores, runs are collapsed, ends trimmed. -/
def cleanName (l : List Char) : List Char :=
  joinUnd ((splitUnd (l.map sanitizeChar)).filter (fun p => !p.isEmpty))

/-- `cleanName` on strings. -/
def cleanStr (s : String) : String := String.mk (cleanName s.data)

theorem splitUnd_ne_nil (l : List Char) : splitUnd l ≠ [] := by
  induction l with
  | nil => simp [splitUnd]
  | cons c cs ih =>
    simp only [splitUnd]
    split
    · simp
    · rcases h : splitUnd cs with _ | ⟨p, ps⟩
      · exact absurd h ih
      · simp [h]

theorem splitUnd_no_und (p : List Char) (hp : ∀ c ∈ p, c ≠ '_') :
    splitUnd p = [p] := by
  induction p with
  | nil => rfl
  | cons c cs ih =>
    have hc : c ≠ '_' := hp c (List.mem_cons_self _ _)
    have hcs : ∀ d ∈ cs, d ≠ '_' := fun d hd => hp d (List.mem_cons_of_mem _ hd)
    simp only [splitUnd, if_neg hc, ih hcs]

theorem splitUnd_append (p rest : List Char) (hp : ∀ c ∈ p, c ≠ '_') :
    splitUnd (p ++ '_' :: rest) = p :: splitUnd rest := by
  induction p with
  | nil => simp [splitUnd]
  | cons c cs ih =>
    have hc : c ≠ '_' := hp c (List.mem_cons_self _ _)
    have hcs : ∀ d ∈ cs, d ≠ '_' := fun d hd => hp d (List.mem_cons_of_mem _ hd)
    have h2 := ih hcs
    simp only [List.cons_append, splitUnd, if_neg hc]
    rw [List.append_eq, h2]

theorem splitUnd_joinUnd (ps : List (List Char)) (h1 : ∀ p ∈ ps, p ≠ [])
    (h2 : ∀ p ∈ ps, ∀ c ∈ p, c ≠ '_') (h3 : ps ≠ []) :
    splitUnd (joinUnd ps) = ps := by
  induction ps with
  | nil => exact absurd rfl h3
  | cons p ps ih =>
    rcases ps with _ | ⟨q, qs⟩
    · simp only [joinUnd]
      exact splitUnd_no_und p (h2 p (List.mem_cons_self _ _))
    · have hj : joinUnd (p :: q :: qs) = p ++ '_' :: joinUnd (q :: qs) := rfl
      rw [hj, splitUnd_append p _ (h2 p (List.mem_cons_self _ _))]
      rw [ih (fun x hx => h1 x (List.mem_cons_of_mem _ hx))
        (fun x hx => h2 x (List.mem_cons_of_mem _ hx)) (by simp)]

theorem splitUnd_chars {l : List Char} {p : List Char} {c : Char}
    (hp : p ∈ splitUnd l) (hc : c ∈ p) : c ∈ l ∧ c ≠ '_' := by
  induction l generalizing p with
  | nil =>
    simp only [splitUnd, List.mem_singleton] at hp
    subst hp
    exact absurd hc (List.not_mem_nil c)
  | cons d ds ih =>
    simp only [splitUnd] at hp
    by_cases hd : d = '_'
    · rw [if_pos hd] at hp
      rcases List.mem_cons.mp hp with rfl | hp2
      · exact absurd hc (List.not_mem_nil c)
      · obtain ⟨h1, h2⟩ := ih hp2 hc
        exact ⟨List.mem_cons_of_mem _ h1, h2⟩
    · rw [if_neg hd] at hp
      rcases hsp : splitUnd ds with _ | ⟨q, qs⟩
      · exact absurd hsp (splitUnd_ne_nil ds)
      · rw [hsp] at hp
        rcases List.mem_cons.mp hp with rfl | hp2
        · rcases List.mem_cons.mp hc with rfl | hcq
          · exact ⟨List.mem_cons_self _ _, hd⟩
          · have hq : q ∈ splitUnd ds := by rw [hsp]; exact List.mem_cons_self _ _
            obtain ⟨h1, h2⟩ := ih hq hcq
            exact ⟨List.mem_cons_of_mem _ h1, h2⟩
        · have hq : p ∈ splitUnd ds := by rw [hsp]; exact List.mem_cons_of_mem _ hp2
          obtain ⟨h1, h2⟩ := ih hq hc
          exact ⟨List.mem_cons_of_mem _ h1, h2⟩

theorem joinUnd_chars {ps : List (List Char)} {c : Char} (hc : c ∈ joinUnd ps) :
    (∃ p ∈ ps, c ∈ p) ∨ c = '_' := by
  induction ps with
  | nil => exact absurd hc (List.not_mem_nil c)
  | cons p ps ih =>
    rcases ps with _ | ⟨q, qs⟩
    · exact Or.inl ⟨p, List.mem_cons_self _ _, hc⟩
    · have hj : joinUnd (p :: q :: qs) = p ++ '_' :: joinUnd (q :: qs) := rfl
      rw [hj] at hc
      rcases List.mem_append.mp hc with h1 | h2
      · exact Or.inl ⟨p, List.mem_cons_self _ _, h1⟩
      · rcases List.mem_cons.mp h2 with rfl | h3
        · exact Or.inr rfl
        · rcases ih h3 with ⟨r, hr, hcr⟩ | h4
          · exact Or.inl ⟨r, List.mem_cons_of_mem _ hr, hcr⟩
          · exact Or.inr h4

theorem sanitizeChar_fixed {c : Char} (h : c ∈ cleanName l) :
    sanitizeChar c = c := by
  rcases joinUnd_chars h with ⟨p, hp, hcp⟩ | rfl
  · have hp2 : p ∈ splitUnd (l.map sanitizeChar) := List.mem_of_mem_filter hp
    obtain ⟨h1, h2⟩ := splitUnd_chars hp2 hcp
    obtain ⟨d, _, rfl⟩ := List.mem_map.mp h1
    by_cases hd : d.isAlphanum
    · simp [sanitizeChar, hd]
    · exact absurd (by simp [sanitizeChar, hd]) h2
  · simp [sanitizeChar]

/-- Applying the sanitizing map to an already-cleaned name changes nothing. -/
theorem map_sanitize_cleanName (l : List Char) :
    (cleanName l).map sanitizeChar = cleanName l :=
  (List.map_congr_left (fun _ hc => sanitizeChar_fixed hc)).trans (List.map_id _)

/-- `cleanName` is idempotent. -/
theorem cleanName_idem (l : List Char) : cleanName (cleanName l) = cleanName l := by
  conv_lhs => rw [cleanName, map_sanitize_cleanName]
  rcases hps : (splitUnd (l.map sanitizeChar)).filter (fun p => !p.isEmpty)
      with _ | ⟨p, ps⟩
  · rw [cleanName, hps]
    simp [joinUnd, splitUnd]
  · have h1 : ∀ q ∈ p :: ps, q ≠ [] := by
      intro q hq
      rw [← hps] at hq
      have := List.of_mem_filter hq
      simpa using this
    have h2 : ∀ q ∈ p :: ps, ∀ c ∈ q, c ≠ '_' := by
      intro q hq c hc
      rw [← hps] at hq
      exact (splitUnd_chars (List.mem_of_mem_filter hq) hc).2
    rw [cleanName, hps]
    rw [splitUnd_joinUnd (p :: ps) h1 h2 (by simp)]
    rw [List.filter_eq_self.mpr (by intro q hq; simpa using h1 q hq)]

/-- `cleanStr` is idempotent. -/
theorem cleanStr_idem (s : String) : cleanStr (cleanStr s) = cleanStr s := by
  simp only [cleanStr]
  rw [cleanName_idem]

end Viz

namespace Viz

/-! ## Frames, the object heap, and `clean_varname`

A frame is an association list of named columns of rationals.  The heap
models Python object identity: references are indices, `writeH` is in-place
mutation of the referenced object, and `allocH` models pandas operations
that build a fresh object. -/

abbrev Series := List ℚ

abbrev Frame := List (String × Series)

abbrev Heap := List Frame

/-- `df[c]` column access: first column with the given name, if any. -/
def getColF : Frame → String → Option Series
  | [], _ => none
  | (n, vs) :: rest, c => if n = c then some vs else getColF rest c

/-- Whether a column name is present in the frame. -/
def hasColF (f : Frame) (c : String) : Bool := (getColF f c).isSome

/-- Dereference a heap reference. -/
def readH (h : Heap) (r : ℕ) : Frame := h.getD r []

/-- In-place mutation of the object at reference `r`. -/
def writeH (h : Heap) (r : ℕ) (f : Frame) : Heap := h.set r f

/-- Allocate a fresh frame object; returns the new heap and the reference. -/
def allocH (h : Heap) (f : Frame) : Heap × ℕ := (h ++ [f], h.length)

/-- `df[c] = vs`: replace the column if present, else append it. -/
def setColF : Frame → String → Series → Frame
  | [], c, vs => [(c, vs)]
  | (n, xs) :: rest, c, vs =>
      if n = c then (c, vs) :: rest else (n, xs) :: setColF rest c vs

/-- `df.columns = ns`: positional in-place renaming of all columns. -/
def setColNames (f : Frame) (ns : List String) : Frame :=
  List.zipWith (fun n (p : String × Series) => (n, p.2)) ns f

/-- Modelled from the spec: `clean_varname(df, var)` of `utils.py` (not in
src/).  §4.1: the input column must exist, else a column-not-found error; the
cleaned name is computed from the original; a copy of the dataset is made
that also carries the column under the cleaned name (when it differs),
leaving the original column intact; the caller's object is never mutated. -/
def clean_varname (h : Heap) (r : ℕ) (v : String) :
    Heap × Except String (ℕ × String) :=
  let f := readH h r
  match getColF f v with
  | none => (h, Except.error ("KeyError: " ++ v))
  | some vs =>
    let c := cleanStr v
    let f1 := if c = v then f else f ++ [(c, vs)]
    let (h1, r1) := allocH h f1
    (h1, Except.ok (r1, c))

theorem getColF_concat_self (f : Frame) (c : String) (vs : Series) :
    ∃ ws, getColF (f ++ [(c, vs)]) c = some ws := by
  induction f with
  | nil => exact ⟨vs, by simp [getColF]⟩
  | cons p rest ih =>
    rcases p with ⟨n, xs⟩
    by_cases hn : n = c
    · exact ⟨xs, by simp [getColF, hn]⟩
    · obtain ⟨ws, hw⟩ := ih
      exact ⟨ws, by simpa [getColF, hn] using hw⟩

theorem readH_alloc (h : Heap) (f : Frame) :
    readH (h ++ [f]) h.length = f := by
  simp [readH, List.getD, List.getElem?_concat_length]

end Viz

/-! ## C8 -/

/-- **C8.** Column normalization is idempotent: if `clean_varname` succeeds on
column `v` of the frame at `r`, returning cleaned name `c` and a reference
`r1` to the copied frame, then running `clean_varname` again on column `c` of
that copy succeeds and returns the same cleaned name `c`. -/
theorem clean_varname_idempotent (h : Viz.Heap) (r : ℕ) (v : String)
    (h1 : Viz.Heap) (r1 : ℕ) (c : String)
    (hcv : Viz.clean_varname h r v = (h1, Except.ok (r1, c))) :
    ∃ h2 r2, Viz.clean_varname h1 r1 c = (h2, Except.ok (r2, c)) := by
  rcases hg : Viz.getColF (Viz.readH h r) v with _ | vs
  · simp [Viz.clean_varname, hg] at hcv
  · simp only [Viz.clean_varname, hg, Viz.allocH, Prod.mk.injEq, Except.ok.injEq] at hcv
    obtain ⟨hh1, hr1, hc⟩ := hcv
    subst hh1
    subst hr1
    subst hc
    simp only [Viz.clean_varname]
    rw [Viz.readH_alloc]
    by_cases hfix : Viz.cleanStr v = v
    · rw [if_pos hfix, hfix, hg]
      simp only [Viz.allocH, Viz.cleanStr_idem, hfix]
      exact ⟨_, _, rfl⟩
    · rw [if_neg hfix]
      obtain ⟨ws, hws⟩ := Viz.getColF_concat_self (Viz.readH h r) (Viz.cleanStr v) vs
      rw [hws]
      simp only [Viz.allocH, Viz.cleanStr_idem]
      exact ⟨_, _, rfl⟩

/-- Witness for C8: normalizing column "my col" yields "my_col", and
re-normalizing the copied frame's "my_col" column yields "my_col" again. -/
theorem clean_varname_idempotent_witness :
    ∃ h2 r2, Viz.clean_varname
        [[("my col", [])], [("my col", []), ("my_col", [])]] 1 "my_col"
      = (h2, Except.ok (r2, "my_col")) :=
  clean_varname_idempotent [[("my col", [])]] 0 "my col"
    [[("my col", [])], [("my col", []), ("my_col", [])]] 1 "my_col" (by rfl)

namespace Viz

/-! ## Title resolution

Source lines 73-75 (histogram), 126-130 (barplot with color), 182-184
(barplot without color), 239-241 (scatterplot), 277-279 (linechart).
Python truthiness: `if not title:` holds when `title` is `None` or empty.
Only the barplot-with-color path has an `else: title = None` branch. -/

/-- Python falsiness of the optional title argument. -/
def pyFalsyTitle : Option String → Bool
  | none => true
  | some s => s.isEmpty

/-- Histogram title logic (lines 73-75). -/
def histTitle (hasTitle : Bool) (title : Option String) (xc : String) : Option String :=
  if hasTitle then
    (if pyFalsyTitle title then some ("Histogram of " ++ xc) else title)
  else title

/-- Barplot-with-color title logic (lines 126-130), the only builder with an
else-branch clearing the title. -/
def barColorTitle (hasTitle : Bool) (title : Option String) (xc cc : String) :
    Option String :=
  if hasTitle then
    (if pyFalsyTitle title then some ("Bar Plot of " ++ xc ++ " and " ++ cc) else title)
  else none

/-- Barplot-without-color title logic (lines 182-184). -/
def barPlainTitle (hasTitle : Bool) (title : Option String) (xc : String) :
    Option String :=
  if hasTitle then
    (if pyFalsyTitle title then some ("Bar plot of " ++ xc) else title)
  else title

/-- Scatterplot title logic (lines 239-241). -/
def scatterTitle (hasTitle : Bool) (title : Option String) (xc yc : String) :
    Option String :=
  if hasTitle then
    (if pyFalsyTitle title then some ("Scatter Plot of " ++ xc ++ " and " ++ yc) else title)
  else title

/-- Linechart title logic (lines 277-279). -/
def lineTitle (hasTitle : Bool) (title : Option String) (yc : String) : Option String :=
  if hasTitle then
    (if pyFalsyTitle title then some ("Time Series of " ++ yc) else title)
  else title

/-! ## The chart builders (heap model)

Each builder receives the heap and the reference `r0` held by `self._df`.
The figure records capture the arguments wired into the `px.*` call. -/

/-- The `px.histogram` call of `histogram` (lines 77-85). -/
structure PxHist where
  pxX : Option String
  pxY : Option String
  color : Option String
  facetCol : Option String
  facetRow : Option String
  bins : ℕ
  opacity : ℚ
  marginal : Option String
  template : String
  title : Option String
  data : Frame

/-- `clean_varname` applied to an optional argument, as in the source's
`if color: color_clean, df_clean = clean_varname(...) else: color_clean = color`. -/
def cleanOpt (h : Heap) (r : ℕ) : Option String → Heap × Except String (ℕ × Option String)
  | none => (h, Except.ok (r, none))
  | some v =>
    match clean_varname h r v with
    | (h1, Except.ok (r1, c)) => (h1, Except.ok (r1, some c))
    | (h1, Except.error e) => (h1, Except.error e)

/-- `Interactive_Visuals.histogram` (lines 21-85): cleans `x`, then `color`,
`y`, `facet_col`, `facet_row`, resolves the title, and wires the `px.histogram`
call (swapping the axes when `is_horizontal`). -/
def histogram (h : Heap) (r0 : ℕ) (x : String) (y : Option String)
    (isHorizontal : Bool) (color facetCol facetRow : Option String) (bins : ℕ)
    (opacity : ℚ) (marginal : Option String) (template : String)
    (hasTitle : Bool) (title : Option String) : Heap × Except String PxHist :=
  match clean_varname h r0 x with
  | (h1, Except.error e) => (h1, Except.error e)
  | (h1, Except.ok (r1, xc)) =>
  match cleanOpt h1 r1 color with
  | (h2, Except.error e) => (h2, Except.error e)
  | (h2, Except.ok (r2, cc)) =>
  match cleanOpt h2 r2 y with
  | (h3, Except.error e) => (h3, Except.error e)
  | (h3, Except.ok (r3, yc)) =>
  match cleanOpt h3 r3 facetCol with
  | (h4, Except.error e) => (h4, Except.error e)
  | (h4, Except.ok (r4, fcc)) =>
  match cleanOpt h4 r4 facetRow with
  | (h5, Except.error e) => (h5, Except.error e)
  | (h5, Except.ok (r5, frc)) =>
    let t := histTitle hasTitle title xc
    let fig : PxHist :=
      if isHorizontal then
        ⟨yc, some xc, cc, fcc, frc, bins, opacity, marginal, template, t, readH h5 r5⟩
      else
        ⟨some xc, yc, cc, fcc, frc, bins, opacity, marginal, template, t, readH h5 r5⟩
    (h5, Except.ok fig)

/-- The `px.bar` call of `barplot` (lines 133-192). -/
structure PxBar where
  xAxis : String
  yAxis : String
  color : Option String
  barmode : String
  template : String
  opacity : ℚ
  text : Option Series
  title : Option String
  data : Frame

/-- `Interactive_Visuals.barplot` (lines 87-192).  With a color column it
builds the grouped aggregate (fresh `reset_index` object), assigns the
unrounded percentages, renames the columns, rounds the percentages, cleans the
two names and wires one of the 8 `px.bar` variants.  Without a color column it
builds the one-key aggregate (whose percentage column is not rounded and not
plotted) and always plots counts. -/
def barplot (h : Heap) (r0 : ℕ) (x : String) (color : Option String) (opacity : ℚ)
    (template : String) (hasTitle : Bool) (barmode : String) (isHorizontal : Bool)
    (title : Option String) (isPercent showNum : Bool) : Heap × Except String PxBar :=
  match color with
  | some col =>
    let f := readH h r0
    match getColF f x, getColF f col with
    | some xs, some cs =>
      let rows := xs.zip cs
      let stack0 : Frame :=
        [(x, (groupKeys rows).map (fun k => k.1)),
         (col, (groupKeys rows).map (fun k => k.2)),
         ("0", (groupKeys rows).map (fun k => ((rows.count k : ℕ) : ℚ)))]
      let ha := (allocH h stack0).1
      let rs := (allocH h stack0).2
      let hb := writeH ha rs (setColF (readH ha rs) "Percentage"
        ((groupKeys rows).map (rawPct rows)))
      let hc := writeH hb rs (setColNames (readH hb rs) [x, col, "Count", "Percentage"])
      let hd := writeH hc rs (setColF (readH hc rs) "Percentage"
        (((getColF (readH hc rs) "Percentage").getD []).map roundq2))
      match clean_varname hd rs x with
      | (he, Except.error e) => (he, Except.error e)
      | (he, Except.ok (rc1, xc)) =>
      match clean_varname he rc1 col with
      | (hf, Except.error e) => (hf, Except.error e)
      | (hf, Except.ok (rc2, cc)) =>
        let t := barColorTitle hasTitle title xc cc
        let valcol : String := if isPercent then "Percentage" else "Count"
        let dataf := readH hf rc2
        let txt : Option Series :=
          if showNum then some ((getColF dataf valcol).getD []) else none
        let fig : PxBar :=
          if isHorizontal then ⟨valcol, xc, some cc, barmode, template, opacity, txt, t, dataf⟩
          else ⟨xc, valcol, some cc, barmode, template, opacity, txt, t, dataf⟩
        (hf, Except.ok fig)
    | _, _ => (h, Except.error "KeyError: groupby key")
  | none =>
    let f := readH h r0
    match getColF f x with
    | none => (h, Except.error ("KeyError: " ++ x))
    | some xs =>
      let stack0 : Frame :=
        [(x, groupKeys1 xs), ("0", (groupKeys1 xs).map (fun a => ((xs.count a : ℕ) : ℚ)))]
      let ha := (allocH h stack0).1
      let rs := (allocH h stack0).2
      let hb := writeH ha rs (setColF (readH ha rs) "Percentage"
        ((groupKeys1 xs).map (rawPct1 xs)))
      let hc := writeH hb rs (setColNames (readH hb rs) [x, "Count", "Percentage"])
      match clean_varname hc rs x with
      | (hd, Except.error e) => (hd, Except.error e)
      | (hd, Except.ok (rc1, xc)) =>
        let t := barPlainTitle hasTitle title xc
        let dataf := readH hd rc1
        let fig : PxBar :=
          if isHorizontal then ⟨"Count", xc, none, barmode, template, opacity, none, t, dataf⟩
          else ⟨xc, "Count", none, barmode, template, opacity, none, t, dataf⟩
        (hd, Except.ok fig)

/-- The `px.scatter` call of `scatterplot` (lines 243-244). -/
structure PxScatter where
  pxX : String
  pxY : String
  color : Option String
  margX : Option String
  margY : Option String
  trendline : Option String
  template : String
  opacity : ℚ
  title : Option String
  data : Frame

/-- Elementwise series addition; numpy raises when the lengths differ. -/
def seriesAdd (a b : Series) : Except String Series :=
  if a.length = b.length then Except.ok (List.zipWith (fun u w => u + w) a b)
  else Except.error "ValueError: operands could not be broadcast together"

/-- The jitter block of `scatterplot` (lines 230-232):

  df_clean[x_clean] = df_clean[x_clean] + np.random.normal(0, jitter_sd, size=len(df))

`df` is the module-global name; it is only defined when the module runs as a
script, so `globalDfLen` is the length of that global when it exists and
`none` otherwise (then the block raises `NameError`).  `draw sd n` is the
oracle for the `np.random.normal(0, sd, n)` samples. -/
def scatterJitter (h : Heap) (r : ℕ) (xc yc : String) (jitter : Bool) (jitterSd : ℚ)
    (globalDfLen : Option ℕ) (draw : ℚ → ℕ → Series) : Heap × Except String Unit :=
  if jitter then
    match globalDfLen with
    | none => (h, Except.error "NameError: name df is not defined")
    | some n =>
      match seriesAdd ((getColF (readH h r) xc).getD []) (draw jitterSd n) with
      | Except.error e => (h, Except.error e)
      | Except.ok xs1 =>
        let h1 := writeH h r (setColF (readH h r) xc xs1)
        match seriesAdd ((getColF (readH h1 r) yc).getD []) (draw jitterSd n) with
        | Except.error e => (h1, Except.error e)
        | Except.ok ys1 =>
          (writeH h1 r (setColF (readH h1 r) yc ys1), Except.ok ())
  else (h, Except.ok ())

/-- `Interactive_Visuals.scatterplot` (lines 194-245): cleans `x` and `y`,
optionally jitters both columns of the working copy in place, cleans `color`,
resolves the title and wires the `px.scatter` call. -/
def scatterplot (h : Heap) (r0 : ℕ) (globalDfLen : Option ℕ) (draw : ℚ → ℕ → Series)
    (x y : String) (color : Option String) (jitter : Bool) (jitterSd : ℚ)
    (margX margY trendline : Option String) (opacity : ℚ) (template : String)
    (hasTitle : Bool) (title : Option String) : Heap × Except String PxScatter :=
  match clean_varname h r0 x with
  | (h1, Except.error e) => (h1, Except.error e)
  | (h1, Except.ok (r1, xc)) =>
  match clean_varname h1 r1 y with
  | (h2, Except.error e) => (h2, Except.error e)
  | (h2, Except.ok (r2, yc)) =>
  match scatterJitter h2 r2 xc yc jitter jitterSd globalDfLen draw with
  | (h3, Except.error e) => (h3, Except.error e)
  | (h3, Except.ok _) =>
  match cleanOpt h3 r2 color with
  | (h4, Except.error e) => (h4, Except.error e)
  | (h4, Except.ok (r4, cc)) =>
    let t := scatterTitle hasTitle title xc yc
    (h4, Except.ok ⟨xc, yc, cc, margX, margY, trendline, template, opacity, t, readH h4 r4⟩)

/-- The `px.line` call of `linechart` (line 281). -/
structure PxLine where
  pxX : String
  pxY : String
  color : Option String
  template : String
  title : Option String
  data : Frame

/-- `Interactive_Visuals.linechart` (lines 247-283). -/
def linechart (h : Heap) (r0 : ℕ) (x y : String) (color : Option String)
    (template : String) (hasTitle : Bool) (title : Option String) :
    Heap × Except String PxLine :=
  match clean_varname h r0 x with
  | (h1, Except.error e) => (h1, Except.error e)
  | (h1, Except.ok (r1, xc)) =>
  match clean_varname h1 r1 y with
  | (h2, Except.error e) => (h2, Except.error e)
  | (h2, Except.ok (r2, yc)) =>
  match cleanOpt h2 r2 color with
  | (h3, Except.error e) => (h3, Except.error e)
  | (h3, Except.ok (r3, cc)) =>
    (h3, Except.ok ⟨xc, yc, cc, template, lineTitle hasTitle title yc, readH h3 r3⟩)

end Viz

/-! ## C5 -/

/-- **C5.** The claim states that a jitter request with `jitter_sd = 0`
succeeds and leaves the plotted values unchanged.  The source's jitter block
sizes the noise draw with `len(df)` where `df` is an undefined module-global
name (the method's frame only binds `self`, `df_clean`, …), so any call with
`jitter=True` raises `NameError` before drawing — here evaluated on a
two-column frame with `jitter_sd = 0` and no module-global `df`. -/
theorem scatterplot_jitter_zero_sd_NameError :
    (Viz.scatterplot [[("Predictor", [1]), ("Response", [2])]] 0 none (fun _ _ => [])
        "Predictor" "Response" none true 0 none none none 1 "ggplot2" true none).2
      = Except.error "NameError: name df is not defined" := by rfl

/-! ## C6 -/

/-- **C6 counterexample.** The claim says that when titles are disabled the
chart carries no title even if an explicit title was supplied.  `histogram`
has no else-branch clearing the title, so with `has_title=False` and
`title="T"` the figure still carries title "T". -/
theorem histogram_disabled_title_passthrough_counterexample :
    ∃ fig, (Viz.histogram [[("X", [])]] 0 "X" none false none none none 20 1 none
        "ggplot2" false (some "T")).2 = Except.ok fig ∧ fig.title = some "T" ∧
      fig.title ≠ none :=
  ⟨_, rfl, rfl, by simp [Viz.histTitle]⟩

/-- **C6 (amended).** When titles are enabled, each builder uses its default
title (from the cleaned column names) if no explicit non-empty title is
supplied, and an explicit non-empty title overrides the default.  When titles
are disabled, the default is suppressed in every builder, but an explicitly
supplied title is cleared only in the barplot-with-color path; histogram,
barplot-without-color, scatterplot and linechart pass the supplied title
through unchanged. -/
theorem builder_title_resolution :
    ∀ (t : Option String) (s xc yc cc : String),
      (Viz.histTitle true none xc = some ("Histogram of " ++ xc)) ∧
      (s ≠ "" → Viz.histTitle true (some s) xc = some s) ∧
      (Viz.histTitle false t xc = t) ∧
      (Viz.barColorTitle true none xc cc = some ("Bar Plot of " ++ xc ++ " and " ++ cc)) ∧
      (s ≠ "" → Viz.barColorTitle true (some s) xc cc = some s) ∧
      (Viz.barColorTitle false t xc cc = none) ∧
      (Viz.barPlainTitle true none xc = some ("Bar plot of " ++ xc)) ∧
      (s ≠ "" → Viz.barPlainTitle true (some s) xc = some s) ∧
      (Viz.barPlainTitle false t xc = t) ∧
      (Viz.scatterTitle true none xc yc = some ("Scatter Plot of " ++ xc ++ " and " ++ yc)) ∧
      (s ≠ "" → Viz.scatterTitle true (some s) xc yc = some s) ∧
      (Viz.scatterTitle false t xc yc = t) ∧
      (Viz.lineTitle true none yc = some ("Time Series of " ++ yc)) ∧
      (s ≠ "" → Viz.lineTitle true (some s) yc = some s) ∧
      (Viz.lineTitle false t yc = t) := by
  intro t s xc yc cc
  refine ⟨rfl, ?_, rfl, rfl, ?_, rfl, rfl, ?_, rfl, rfl, ?_, rfl, rfl, ?_, rfl⟩ <;>
    intro hne <;>
    simp [Viz.histTitle, Viz.barColorTitle, Viz.barPlainTitle, Viz.scatterTitle,
      Viz.lineTitle, Viz.pyFalsyTitle, String.isEmpty_iff, hne]

/-- Witness for C6: explicit non-empty titles at concrete inputs. -/
theorem builder_title_resolution_witness :
    Viz.histTitle true (some "T") "X" = some "T" ∧
      Viz.barColorTitle true (some "T") "X" "C" = some "T" ∧
      Viz.barPlainTitle true (some "T") "X" = some "T" ∧
      Viz.scatterTitle true (some "T") "X" "Y" = some "T" ∧
      Viz.lineTitle true (some "T") "Y" = some "T" :=
  ⟨(builder_title_resolution (some "T") "T" "X" "Y" "C").2.1 (by decide),
   (builder_title_resolution (some "T") "T" "X" "Y" "C").2.2.2.2.1 (by decide),
   (builder_title_resolution (some "T") "T" "X" "Y" "C").2.2.2.2.2.2.2.1 (by decide),
   (builder_title_resolution (some "T") "T" "X" "Y" "C").2.2.2.2.2.2.2.2.2.2.1 (by decide),
   (builder_title_resolution (some "T") "T" "X" "Y" "C").2.2.2.2.2.2.2.2.2.2.2.2.2.1
     (by decide)⟩

namespace Viz

/-! ### Frame effects: no builder mutates the caller's frame object

The caller's frame is the heap entry `self._df` references (entry 0 in the
theorem below).  Every in-place write (`writeH`) in the builders targets a
frame allocated during the call (a `reset_index` result or a `clean_varname`
copy), whose reference equals the length of some earlier heap and is
therefore positive, so entry 0 is untouched. -/

theorem head?_append_left {α : Type} {l : List α} {a : α} (h : l.head? = some a)
    (l2 : List α) : (l ++ l2).head? = some a := by
  cases l with
  | nil => simp at h
  | cons b t => simpa using h

theorem head?_set_of_pos {α : Type} {l : List α} {a : α} (h : l.head? = some a) {r : ℕ}
    (hr : 1 ≤ r) (x : α) : (l.set r x).head? = some a := by
  cases l with
  | nil => simp at h
  | cons b t =>
    cases r with
    | zero => omega
    | succ n => simpa using h

theorem length_pos_of_head? {α : Type} {l : List α} {a : α} (h : l.head? = some a) :
    1 ≤ l.length := by
  cases l with
  | nil => simp at h
  | cons b t => simp

theorem clean_varname_head {h : Heap} {df : Frame} (hh : h.head? = some df)
    (r : ℕ) (v : String) : ((clean_varname h r v).1).head? = some df := by
  simp only [clean_varname]
  split
  · exact hh
  · exact head?_append_left hh _

theorem clean_varname_ok_ref {h : Heap} {r r1 : ℕ} {v c : String} {h1 : Heap}
    (he : clean_varname h r v = (h1, Except.ok (r1, c))) : r1 = h.length := by
  simp only [clean_varname] at he
  rcases hg : getColF (readH h r) v with _ | vs <;> rw [hg] at he
  · simp at he
  · simp only [allocH, Prod.mk.injEq, Except.ok.injEq] at he
    exact he.2.1.symm

theorem cleanOpt_head {h : Heap} {df : Frame} (hh : h.head? = some df)
    (r : ℕ) (v : Option String) : ((cleanOpt h r v).1).head? = some df := by
  cases v with
  | none => exact hh
  | some s =>
    simp only [cleanOpt]
    split
    · rename_i h1 r1 c heq
      have hx := clean_varname_head hh r s
      rw [heq] at hx
      exact hx
    · rename_i h1 e heq
      have hx := clean_varname_head hh r s
      rw [heq] at hx
      exact hx

theorem scatterJitter_head {h : Heap} {df : Frame} (hh : h.head? = some df) {r : ℕ}
    (hr : 1 ≤ r) (xc yc : String) (j : Bool) (sd : ℚ) (g : Option ℕ)
    (draw : ℚ → ℕ → Series) :
    ((scatterJitter h r xc yc j sd g draw).1).head? = some df := by
  simp only [scatterJitter]
  split
  · split
    · exact hh
    · split
      · exact hh
      · split
        · exact head?_set_of_pos hh hr _
        · exact head?_set_of_pos (head?_set_of_pos hh hr _) hr _
  · exact hh

theorem histogram_head {h : Heap} {df : Frame} (hh : h.head? = some df) (r0 : ℕ)
    (x : String) (y : Option String) (isH : Bool) (color fc fr : Option String)
    (bins : ℕ) (op : ℚ) (marg : Option String) (tpl : String) (ht : Bool)
    (t : Option String) :
    ((histogram h r0 x y isH color fc fr bins op marg tpl ht t).1).head? = some df := by
  simp only [histogram]
  split
  · rename_i h1 e heq
    have hx := clean_varname_head hh r0 x
    rw [heq] at hx
    exact hx
  · rename_i h1 r1 xc heq
    have hh1 : h1.head? = some df := by
      have hx := clean_varname_head hh r0 x
      rw [heq] at hx
      exact hx
    split
    · rename_i h2 e heq2
      have hx := cleanOpt_head hh1 r1 color
      rw [heq2] at hx
      exact hx
    · rename_i h2 r2 cc heq2
      have hh2 : h2.head? = some df := by
        have hx := cleanOpt_head hh1 r1 color
        rw [heq2] at hx
        exact hx
      split
      · rename_i h3 e heq3
        have hx := cleanOpt_head hh2 r2 y
        rw [heq3] at hx
        exact hx
      · rename_i h3 r3 yc heq3
        have hh3 : h3.head? = some df := by
          have hx := cleanOpt_head hh2 r2 y
          rw [heq3] at hx
          exact hx
        split
        · rename_i h4 e heq4
          have hx := cleanOpt_head hh3 r3 fc
          rw [heq4] at hx
          exact hx
        · rename_i h4 r4 fcc heq4
          have hh4 : h4.head? = some df := by
            have hx := cleanOpt_head hh3 r3 fc
            rw [heq4] at hx
            exact hx
          split
          · rename_i h5 e heq5
            have hx := cleanOpt_head hh4 r4 fr
            rw [heq5] at hx
            exact hx
          · rename_i h5 r5 frc heq5
            have hx := cleanOpt_head hh4 r4 fr
            rw [heq5] at hx
            exact hx

theorem linechart_head {h : Heap} {df : Frame} (hh : h.head? = some df) (r0 : ℕ)
    (x y : String) (color : Option String) (tpl : String) (ht : Bool)
    (t : Option String) :
    ((linechart h r0 x y color tpl ht t).1).head? = some df := by
  simp only [linechart]
  split
  · rename_i h1 e heq
    have hx := clean_varname_head hh r0 x
    rw [heq] at hx
    exact hx
  · rename_i h1 r1 xc heq
    have hh1 : h1.head? = some df := by
      have hx := clean_varname_head hh r0 x
      rw [heq] at hx
      exact hx
    split
    · rename_i h2 e heq2
      have hx := clean_varname_head hh1 r1 y
      rw [heq2] at hx
      exact hx
    · rename_i h2 r2 yc heq2
      have hh2 : h2.head? = some df := by
        have hx := clean_varname_head hh1 r1 y
        rw [heq2] at hx
        exact hx
      split
      · rename_i h3 e heq3
        have hx := cleanOpt_head hh2 r2 color
        rw [heq3] at hx
        exact hx
      · rename_i h3 r3 cc heq3
        have hx := cleanOpt_head hh2 r2 color
        rw [heq3] at hx
        exact hx

theorem scatterplot_head {h : Heap} {df : Frame} (hh : h.head? = some df) (r0 : ℕ)
    (g : Option ℕ) (draw : ℚ → ℕ → Series) (x y : String) (color : Option String)
    (j : Bool) (sd : ℚ) (mx my tr : Option String) (op : ℚ) (tpl : String)
    (ht : Bool) (t : Option String) :
    ((scatterplot h r0 g draw x y color j sd mx my tr op tpl ht t).1).head? = some df := by
  simp only [scatterplot]
  split
  · rename_i h1 e heq
    have hx := clean_varname_head hh r0 x
    rw [heq] at hx
    exact hx
  · rename_i h1 r1 xc heq
    have hh1 : h1.head? = some df := by
      have hx := clean_varname_head hh r0 x
      rw [heq] at hx
      exact hx
    split
    · rename_i h2 e heq2
      have hx := clean_varname_head hh1 r1 y
      rw [heq2] at hx
      exact hx
    · rename_i h2 r2 yc heq2
      have hh2 : h2.head? = some df := by
        have hx := clean_varname_head hh1 r1 y
        rw [heq2] at hx
        exact hx
      have hr2 : 1 ≤ r2 := by
        have hv := clean_varname_ok_ref heq2
        have hl := length_pos_of_head? hh1
        omega
      split
      · rename_i h3 e heq3
        have hx := scatterJitter_head hh2 hr2 xc yc j sd g draw
        rw [heq3] at hx
        exact hx
      · rename_i h3 u heq3
        have hh3 : h3.head? = some df := by
          have hx := scatterJitter_head hh2 hr2 xc yc j sd g draw
          rw [heq3] at hx
          exact hx
        split
        · rename_i h4 e heq4
          have hx := cleanOpt_head hh3 r2 color
          rw [heq4] at hx
          exact hx
        · rename_i h4 r4 cc heq4
          have hx := cleanOpt_head hh3 r2 color
          rw [heq4] at hx
          exact hx

end Viz

namespace Viz

theorem barplot_head {h : Heap} {df : Frame} (hh : h.head? = some df) (r0 : ℕ)
    (x : String) (color : Option String) (op : ℚ) (tpl : String) (ht : Bool)
    (bm : String) (isH : Bool) (t : Option String) (isP sn : Bool) :
    ((barplot h r0 x color op tpl ht bm isH t isP sn).1).head? = some df := by
  have hlen : 1 ≤ h.length := length_pos_of_head? hh
  have step3 : ∀ (f1 v2 v3 v4 : Frame),
      ((((h ++ [f1]).set h.length v2).set h.length v3).set h.length v4).head? = some df :=
    fun f1 v2 v3 v4 =>
      head?_set_of_pos
        (head?_set_of_pos (head?_set_of_pos (head?_append_left hh _) hlen _) hlen _) hlen _
  have step2 : ∀ (f1 v2 v3 : Frame),
      (((h ++ [f1]).set h.length v2).set h.length v3).head? = some df :=
    fun f1 v2 v3 =>
      head?_set_of_pos (head?_set_of_pos (head?_append_left hh _) hlen _) hlen _
  simp only [barplot, allocH, writeH]
  split
  · rename_i col
    split
    · rename_i xs cs
      split
      · rename_i he e heq
        have h1 := congrArg Prod.fst heq
        simp only at h1
        rw [← h1]
        exact clean_varname_head (step3 _ _ _ _) _ x
      · rename_i he rc1 xc heq
        have h1 := congrArg Prod.fst heq
        simp only at h1
        have hhe : he.head? = some df := by
          rw [← h1]
          exact clean_varname_head (step3 _ _ _ _) _ x
        split
        · rename_i hf e heq2
          have h2 := congrArg Prod.fst heq2
          simp only at h2
          rw [← h2]
          exact clean_varname_head hhe rc1 col
        · rename_i hf rc2 cc heq2
          have h2 := congrArg Prod.fst heq2
          simp only at h2
          rw [← h2]
          exact clean_varname_head hhe rc1 col
    · exact hh
  · split
    · exact hh
    · rename_i xs
      split
      · rename_i hd e heq
        have h1 := congrArg Prod.fst heq
        simp only at h1
        rw [← h1]
        exact clean_varname_head (step2 _ _ _) _ x
      · rename_i hd rc1 xc heq
        have h1 := congrArg Prod.fst heq
        simp only at h1
        rw [← h1]
        exact clean_varname_head (step2 _ _ _) _ x

end Viz

namespace Viz

/-! ## Control chart (source lines 285-400) -/

/-- A pandas DataFrame with a timestamp index, as fed to `control_chart_ADTK`
(timestamps modelled as rationals). -/
structure PFrame where
  index : List ℚ
  cols : List (String × List ℚ)

/-- Column access on the column list. -/
def getColP : List (String × List ℚ) → String → Option (List ℚ)
  | [], _ => none
  | (n, vs) :: rest, c => if n = c then some vs else getColP rest c

/-- `df[c]` on an indexed frame. -/
def getCol (f : PFrame) (c : String) : Option (List ℚ) := getColP f.cols c

/-- Whether the frame has the named column. -/
def hasCol (f : PFrame) (c : String) : Bool := (getCol f c).isSome

/-- Boolean-mask row selection on one column (pandas `series[mask]`). -/
def applyMask : List ℚ → List Bool → List ℚ
  | [], _ => []
  | _, [] => []
  | v :: vs, b :: bs => if b then v :: applyMask vs bs else applyMask vs bs

/-- `df[mask]`: apply the row mask to the index and every column. -/
def filterFrame (f : PFrame) (m : List Bool) : PFrame :=
  ⟨applyMask f.index m, f.cols.map (fun nc => (nc.1, applyMask nc.2 m))⟩

/-- The boolean series of a comparison such as `df["Violation"] > 0`. -/
def maskOf (vs : List ℚ) (p : ℚ → Bool) : List Bool := vs.map p

/-- Lines 304-309, the violation bands:

  df_viol = self._df[self._df["Violation"] > 0]
  df_viol_low = df_viol[df_viol["Violation"] <= .33]
  df_viol_med = df_viol[df_viol["Violation"] <= .67]
  df_viol_med = df_viol_med[df_viol_med["Violation"] > .33]
  df_viol_high = df_viol[df_viol["Violation"] > .67]

Returns `(df_viol, df_viol_low, df_viol_med, df_viol_high)`; `none` models the
`KeyError` when the `Violation` column is missing. -/
def controlBands (f : PFrame) : Option (PFrame × PFrame × PFrame × PFrame) :=
  match getCol f "Violation" with
  | none => none
  | some vio =>
    let dfViol := filterFrame f (maskOf vio (fun v => decide (0 < v)))
    match getCol dfViol "Violation" with
    | none => none
    | some vio1 =>
      let low := filterFrame dfViol (maskOf vio1 (fun v => decide (v ≤ 33/100)))
      let med0 := filterFrame dfViol (maskOf vio1 (fun v => decide (v ≤ 67/100)))
      match getCol med0 "Violation" with
      | none => none
      | some vio2 =>
        let med := filterFrame med0 (maskOf vio2 (fun v => decide (33/100 < v)))
        let high := filterFrame dfViol (maskOf vio1 (fun v => decide (67/100 < v)))
        some (dfViol, low, med, high)

/-- One `go.Scatter` series. -/
structure Trace where
  name : String
  mode : String
  showlegend : Bool
  x : List ℚ
  y : List ℚ

/-- The control-chart figure. -/
structure Fig where
  title : String
  template : String
  traces : List Trace

/-- `Interactive_Visuals.control_chart_ADTK` (lines 285-400): bands first
(line 305 raises on a missing `Violation`), then the eight traces in source
order, each column access raising `KeyError` if its column is missing.

Note: the source's sixth trace ("Low Probability of Violation", lines
367-376) takes its y series from `df_viol["Values"]` — the values of the
*whole* violation set — not from `df_viol_low`; the embedding reproduces
this faithfully. -/
def control_chart_ADTK (f : PFrame) (title valueName : String) : Except String Fig :=
  match controlBands f with
  | none => Except.error "KeyError: Violation"
  | some bands =>
  match getCol f "Values" with
  | none => Except.error "KeyError: Values"
  | some values =>
  match getCol f "Median" with
  | none => Except.error "KeyError: Median"
  | some medians =>
  match getCol f "UCL" with
  | none => Except.error "KeyError: UCL"
  | some ucl =>
  match getCol f "LCL" with
  | none => Except.error "KeyError: LCL"
  | some lcl =>
  match getCol bands.1 "Values" with
  | none => Except.error "KeyError: Values"
  | some violValues =>
  match getCol bands.2.2.1 "Values" with
  | none => Except.error "KeyError: Values"
  | some medValues =>
  match getCol bands.2.2.2 "Values" with
  | none => Except.error "KeyError: Values"
  | some highValues =>
  Except.ok
    { title := title
      template := "ggplot2"
      traces :=
        [⟨valueName, "markers+lines", true, f.index, values⟩,
         ⟨"Median", "lines", true, f.index, medians⟩,
         ⟨"Control Limits", "lines", true, f.index, ucl⟩,
         ⟨"LCL", "lines", false, f.index, lcl⟩,
         ⟨"Violation", "markers", true, bands.1.index, violValues⟩,
         ⟨"Low Probability of Violation", "markers", true, bands.2.1.index, violValues⟩,
         ⟨"Medium Probability of Violation", "markers", true, bands.2.2.1.index, medValues⟩,
         ⟨"High Probability of Violation", "markers", true, bands.2.2.2.index, highValues⟩] }

/-- Heap form of the control chart for the frame-effect claim: the band
frames are fresh filtered objects and nothing is ever written in place. -/
def control_chart_ADTK_run (h : List PFrame) (r0 : ℕ) (title valueName : String) :
    List PFrame × Except String Fig :=
  let f := h.getD r0 ⟨[], []⟩
  match controlBands f with
  | none => (h, Except.error "KeyError: Violation")
  | some bands =>
      (h ++ [bands.1, bands.2.1, bands.2.2.1, bands.2.2.2],
       control_chart_ADTK f title valueName)

end Viz

/-! ## C7 -/

/-- **C7.** No builder mutates the caller's frame: running each builder on a
heap whose entry 0 is the caller's frame `df` leaves entry 0 equal to `df`
(all in-place writes target working copies allocated during the call:
`reset_index` results, `clean_varname` copies, or mask-filtered frames).
`clean_varname` itself is modelled from the spec (`utils.py` is not in src/)
as returning a fresh copy. -/
theorem builders_do_not_mutate_caller_frame :
    ∀ (df : Viz.Frame) (cf : Viz.PFrame) (x yS : String)
      (y color fc fr mx my tr : Option String) (isH ht j isP sn : Bool) (bins : ℕ)
      (op sd : ℚ) (marg : Option String) (tpl bm ct vn : String) (t : Option String)
      (g : Option ℕ) (draw : ℚ → ℕ → Viz.Series),
      ((Viz.histogram [df] 0 x y isH color fc fr bins op marg tpl ht t).1).head? = some df ∧
      ((Viz.barplot [df] 0 x color op tpl ht bm isH t isP sn).1).head? = some df ∧
      ((Viz.scatterplot [df] 0 g draw x yS color j sd mx my tr op tpl ht t).1).head?
        = some df ∧
      ((Viz.linechart [df] 0 x yS color tpl ht t).1).head? = some df ∧
      ((Viz.control_chart_ADTK_run [cf] 0 ct vn).1).head? = some cf :=
  by
  intro df cf x yS y color fc fr mx my tr isH ht j isP sn bins op sd marg tpl bm ct vn
    t g draw
  have hh : ([df] : Viz.Heap).head? = some df := rfl
  have hc : ([cf] : List Viz.PFrame).head? = some cf := rfl
  refine ⟨Viz.histogram_head hh 0 x y isH color fc fr bins op marg tpl ht t,
    Viz.barplot_head hh 0 x color op tpl ht bm isH t isP sn,
    Viz.scatterplot_head hh 0 g draw x yS color j sd mx my tr op tpl ht t,
    Viz.linechart_head hh 0 x yS color tpl ht t, ?_⟩
  simp only [Viz.control_chart_ADTK_run]
  split
  · exact hc
  · exact Viz.head?_append_left hc _

namespace Viz

/-! ### Lemmas about boolean-mask filtering -/

theorem getColP_map_applyMask (cols : List (String × List ℚ)) (m : List Bool)
    (c : String) :
    getColP (cols.map (fun nc => (nc.1, applyMask nc.2 m))) c
      = (getColP cols c).map (fun vs => applyMask vs m) := by
  induction cols with
  | nil => rfl
  | cons nc rest ih =>
    rcases nc with ⟨n, vs⟩
    simp only [List.map_cons, getColP]
    by_cases hn : n = c
    · simp [hn]
    · simp [hn, ih]

theorem getCol_filterFrame (f : PFrame) (m : List Bool) (c : String) :
    getCol (filterFrame f m) c = (getCol f c).map (fun vs => applyMask vs m) := by
  simp only [getCol, filterFrame]
  exact getColP_map_applyMask f.cols m c

/-- Claim-side row selection: the entries of `ys` whose positionally paired
entry of `vs` satisfies `p`. -/
def selectRows (ys vs : List ℚ) (p : ℚ → Bool) : List ℚ :=
  ((ys.zip vs).filter (fun t => p t.2)).map (fun t => t.1)

theorem applyMask_maskOf (ys : List ℚ) : ∀ (vs : List ℚ) (p : ℚ → Bool),
    applyMask ys (maskOf vs p) = selectRows ys vs p := by
  induction ys with
  | nil =>
    intro vs p
    cases vs <;> simp [applyMask, maskOf, selectRows, List.zip]
  | cons y ys ih =>
    intro vs p
    cases vs with
    | nil => simp [applyMask, maskOf, selectRows, List.zip]
    | cons v vs =>
      have ih2 : applyMask ys (List.map p vs)
          = List.map (fun t => t.1) (List.filter (fun t => p t.2)
              (List.zipWith Prod.mk ys vs)) := by
        simpa [maskOf, selectRows, List.zip] using ih vs p
      cases hp : p v <;>
        simp [maskOf, applyMask, selectRows, List.filter, hp, ih2, List.zip]

theorem applyMask_applyMask (ys : List ℚ) : ∀ (vs : List ℚ) (p q : ℚ → Bool),
    applyMask (applyMask ys (maskOf vs p)) (maskOf (applyMask vs (maskOf vs p)) q)
      = applyMask ys (maskOf vs (fun v => p v && q v)) := by
  induction ys with
  | nil =>
    intro vs p q
    cases vs <;> simp [applyMask, maskOf]
  | cons y ys ih =>
    intro vs p q
    cases vs with
    | nil => simp [applyMask, maskOf]
    | cons v vs =>
      have ih2 := ih vs p q
      simp only [maskOf] at ih2
      cases hp : p v <;> cases hq : q v <;>
        simp [maskOf, applyMask, hp, hq, ih2]

theorem band_pred_low :
    (fun v : ℚ => decide (0 < v) && decide (v ≤ 33/100))
      = fun v : ℚ => decide (0 < v ∧ v ≤ 33/100) := by
  funext v
  rw [Bool.decide_and]

theorem band_pred_med :
    (fun v : ℚ => (decide (0 < v) && decide (v ≤ 67/100)) && decide (33/100 < v))
      = fun v : ℚ => decide (33/100 < v ∧ v ≤ 67/100) := by
  funext v
  rw [Bool.decide_and]
  by_cases h1 : (0:ℚ) < v <;> by_cases h2 : v ≤ 67/100 <;> by_cases h3 : (33:ℚ)/100 < v <;>
    simp [h1, h2, h3] <;> linarith

theorem band_pred_high :
    (fun v : ℚ => decide (0 < v) && decide (67/100 < v))
      = fun v : ℚ => decide (67/100 < v) := by
  funext v
  by_cases h1 : (0:ℚ) < v <;> by_cases h3 : (67:ℚ)/100 < v <;> simp [h1, h3] <;> linarith

end Viz

/-! ## C3 -/

/-- **C3.** The three violation bands are computed by successive boolean-mask
filters; for any frame with a `Violation` column they select exactly the rows
with `0 < violation ≤ 0.33` (low), `0.33 < violation ≤ 0.67` (medium) and
`0.67 < violation` (high).  The three predicates are mutually exclusive,
together cover exactly `{violation > 0}`, a violation of exactly 0.33 falls
only in the low band, one of exactly 0.67 only in the medium band, and
in-control rows (`violation = 0`) fall in no band. -/
theorem control_bands_partition :
    ∀ (f : Viz.PFrame) (vio : List ℚ), Viz.getCol f "Violation" = some vio →
      ∃ dfViol low med high,
        Viz.controlBands f = some (dfViol, low, med, high) ∧
        dfViol.index = Viz.selectRows f.index vio (fun v => decide (0 < v)) ∧
        low.index = Viz.selectRows f.index vio (fun v => decide (0 < v ∧ v ≤ 33/100)) ∧
        med.index = Viz.selectRows f.index vio (fun v => decide (33/100 < v ∧ v ≤ 67/100)) ∧
        high.index = Viz.selectRows f.index vio (fun v => decide (67/100 < v)) ∧
        (∀ v : ℚ, 0 < v →
          ((0 < v ∧ v ≤ 33/100) ∧ ¬(33/100 < v ∧ v ≤ 67/100) ∧ ¬(67/100 < v)) ∨
          (¬(0 < v ∧ v ≤ 33/100) ∧ (33/100 < v ∧ v ≤ 67/100) ∧ ¬(67/100 < v)) ∨
          (¬(0 < v ∧ v ≤ 33/100) ∧ ¬(33/100 < v ∧ v ≤ 67/100) ∧ (67/100 < v))) ∧
        (∀ v : ℚ, ¬ 0 < v →
          ¬(0 < v ∧ v ≤ 33/100) ∧ ¬(33/100 < v ∧ v ≤ 67/100) ∧ ¬(67/100 < v)) ∧
        ((0 < (33:ℚ)/100 ∧ (33:ℚ)/100 ≤ 33/100) ∧
          ¬((33:ℚ)/100 < 33/100 ∧ (33:ℚ)/100 ≤ 67/100) ∧ ¬((67:ℚ)/100 < 33/100)) ∧
        (¬(0 < (67:ℚ)/100 ∧ (67:ℚ)/100 ≤ 33/100) ∧
          ((33:ℚ)/100 < 67/100 ∧ (67:ℚ)/100 ≤ 67/100) ∧ ¬((67:ℚ)/100 < 67/100)) := by
  intro f vio hg
  have hv1 : Viz.getCol (Viz.filterFrame f (Viz.maskOf vio (fun v => decide (0 < v))))
      "Violation"
      = some (Viz.applyMask vio (Viz.maskOf vio (fun v => decide (0 < v)))) := by
    rw [Viz.getCol_filterFrame, hg]
    rfl
  have hv2 : Viz.getCol
      (Viz.filterFrame (Viz.filterFrame f (Viz.maskOf vio (fun v => decide (0 < v))))
        (Viz.maskOf (Viz.applyMask vio (Viz.maskOf vio (fun v => decide (0 < v))))
          (fun v => decide (v ≤ 67/100))))
      "Violation"
      = some (Viz.applyMask (Viz.applyMask vio (Viz.maskOf vio (fun v => decide (0 < v))))
          (Viz.maskOf (Viz.applyMask vio (Viz.maskOf vio (fun v => decide (0 < v))))
            (fun v => decide (v ≤ 67/100)))) := by
    rw [Viz.getCol_filterFrame, hv1]
    rfl
  simp only [Viz.controlBands, hg, hv1, hv2]
  refine ⟨_, _, _, _, rfl, ?_, ?_, ?_, ?_, ?_, ?_, ?_, ?_⟩
  · simp only [Viz.filterFrame]
    exact Viz.applyMask_maskOf f.index vio _
  · simp only [Viz.filterFrame]
    simp only [Viz.applyMask_applyMask]
    simp only [Viz.band_pred_low]
    rw [Viz.applyMask_maskOf]
  · simp only [Viz.filterFrame]
    simp only [Viz.applyMask_applyMask]
    simp only [Viz.band_pred_med]
    rw [Viz.applyMask_maskOf]
  · simp only [Viz.filterFrame]
    simp only [Viz.applyMask_applyMask]
    simp only [Viz.band_pred_high]
    rw [Viz.applyMask_maskOf]
  · intro v hv
    by_cases h2 : v ≤ 33/100
    · exact Or.inl ⟨⟨hv, h2⟩, fun hc => by have := hc.1; linarith, fun hc => by linarith⟩
    · by_cases h3 : v ≤ 67/100
      · exact Or.inr (Or.inl ⟨fun hc => h2 hc.2, ⟨not_le.mp h2, h3⟩,
          fun hc => by linarith⟩)
      · exact Or.inr (Or.inr ⟨fun hc => h2 hc.2, fun hc => h3 hc.2, not_le.mp h3⟩)
  · intro v hv
    exact ⟨fun hc => hv hc.1, fun hc => hv (by have := hc.1; linarith),
      fun hc => hv (by linarith)⟩
  · norm_num
  · norm_num

/-- Witness for C3: a frame with violations 0, 0.33, 0.67, 0.9 at timestamps
1..4; the low band holds exactly timestamp 2, the medium band exactly 3, the
high band exactly 4. -/
theorem control_bands_partition_witness :
    ∃ dfViol low med high,
      Viz.controlBands ⟨[1, 2, 3, 4], [("Violation", [0, 33/100, 67/100, 9/10])]⟩
        = some (dfViol, low, med, high) ∧
      low.index = [2] ∧ med.index = [3] ∧ high.index = [4] := by
  obtain ⟨dfV, low, med, high, h1, _, h3, h4, h5, _⟩ :=
    control_bands_partition ⟨[1, 2, 3, 4], [("Violation", [0, 33/100, 67/100, 9/10])]⟩
      [0, 33/100, 67/100, 9/10] rfl
  refine ⟨dfV, low, med, high, h1, ?_, ?_, ?_⟩
  · rw [h3]
    norm_num [Viz.selectRows, List.zip, List.zipWith, List.filter]
  · rw [h4]
    norm_num [Viz.selectRows, List.zip, List.zipWith, List.filter]
  · rw [h5]
    norm_num [Viz.selectRows, List.zip, List.zipWith, List.filter]

namespace Viz

theorem index_filterFrame (f : PFrame) (m : List Bool) :
    (filterFrame f m).index = applyMask f.index m := rfl

end Viz

/-! ## C4 -/

/-- **C4.** Evaluation exposing the low-band slip: for a frame with a high
violation (0.9) at timestamp 1 and a low violation (0.2) at timestamp 2, the
figure has the eight drawable series with the LCL line excluded from the
legend, and the medium and high band traces pair their own rows' timestamps
with their own rows' values — but the low-band trace pairs its single
timestamp `[2]` with `df_viol["Values"] = [5, 7]`, the values of the *whole*
violation set, although the low band's own values are `[7]`. -/
theorem control_chart_low_band_y_mismatch :
    Viz.control_chart_ADTK
        ⟨[1, 2], [("Values", [5, 7]), ("Median", [6, 6]), ("UCL", [10, 10]),
          ("LCL", [0, 0]), ("Violation", [9/10, 2/10])]⟩
        "Control Chart Example" "Actuals"
      = Except.ok
          ⟨"Control Chart Example", "ggplot2",
           [⟨"Actuals", "markers+lines", true, [1, 2], [5, 7]⟩,
            ⟨"Median", "lines", true, [1, 2], [6, 6]⟩,
            ⟨"Control Limits", "lines", true, [1, 2], [10, 10]⟩,
            ⟨"LCL", "lines", false, [1, 2], [0, 0]⟩,
            ⟨"Violation", "markers", true, [1, 2], [5, 7]⟩,
            ⟨"Low Probability of Violation", "markers", true, [2], [5, 7]⟩,
            ⟨"Medium Probability of Violation", "markers", true, [], []⟩,
            ⟨"High Probability of Violation", "markers", true, [1], [5]⟩]⟩ ∧
      ((Viz.controlBands
          ⟨[1, 2], [("Values", [5, 7]), ("Median", [6, 6]), ("UCL", [10, 10]),
            ("LCL", [0, 0]), ("Violation", [9/10, 2/10])]⟩).map
        (fun b => Viz.getCol b.2.1 "Values")) = some (some [7]) ∧
      ([5, 7] : List ℚ) ≠ [7] := by
  have hVio : Viz.getCol
      ⟨[1, 2], [("Values", [5, 7]), ("Median", [6, 6]), ("UCL", [10, 10]),
        ("LCL", [0, 0]), ("Violation", [9/10, 2/10])]⟩ "Violation"
      = some [9/10, 2/10] := rfl
  have hVal : Viz.getCol
      ⟨[1, 2], [("Values", [5, 7]), ("Median", [6, 6]), ("UCL", [10, 10]),
        ("LCL", [0, 0]), ("Violation", [9/10, 2/10])]⟩ "Values"
      = some [5, 7] := rfl
  have hMedian : Viz.getCol
      ⟨[1, 2], [("Values", [5, 7]), ("Median", [6, 6]), ("UCL", [10, 10]),
        ("LCL", [0, 0]), ("Violation", [9/10, 2/10])]⟩ "Median"
      = some [6, 6] := rfl
  have hUCL : Viz.getCol
      ⟨[1, 2], [("Values", [5, 7]), ("Median", [6, 6]), ("UCL", [10, 10]),
        ("LCL", [0, 0]), ("Violation", [9/10, 2/10])]⟩ "UCL"
      = some [10, 10] := rfl
  have hLCL : Viz.getCol
      ⟨[1, 2], [("Values", [5, 7]), ("Median", [6, 6]), ("UCL", [10, 10]),
        ("LCL", [0, 0]), ("Violation", [9/10, 2/10])]⟩ "LCL"
      = some [0, 0] := rfl
  refine ⟨?_, ?_, by simp⟩
  · simp only [Viz.control_chart_ADTK, Viz.controlBands, Viz.getCol_filterFrame,
      Viz.index_filterFrame, hVio, hVal, hMedian, hUCL, hLCL, Option.map_some']
    norm_num [Viz.applyMask, Viz.maskOf]
  · simp only [Viz.controlBands, Viz.getCol_filterFrame, hVio, hVal, Option.map_some']
    norm_num [Viz.applyMask, Viz.maskOf]

/-! ## C9 -/

namespace Viz

theorem controlBands_some_hasViolation {f : PFrame}
    {b : PFrame × PFrame × PFrame × PFrame}
    (h : controlBands f = some b) : hasCol f "Violation" = true := by
  unfold controlBands at h
  rcases hg : getCol f "Violation" with _ | vio
  · rw [hg] at h
    simp at h
  · simp [hasCol, hg]

end Viz

/-- **C9.** If any of the five required columns (`Values`, `Median`, `UCL`,
`LCL`, `Violation`) is missing, `control_chart_ADTK` fails with a `KeyError`
surfaced to the caller; and whenever it returns successfully the figure is
complete — exactly the eight drawable series.  There is no partial result. -/
theorem control_chart_missing_column_errors :
    ∀ (f : Viz.PFrame) (t v : String),
      ((Viz.hasCol f "Values" = false ∨ Viz.hasCol f "Median" = false ∨
        Viz.hasCol f "UCL" = false ∨ Viz.hasCol f "LCL" = false ∨
        Viz.hasCol f "Violation" = false) →
        ∃ e, Viz.control_chart_ADTK f t v = Except.error e) ∧
      (∀ fig, Viz.control_chart_ADTK f t v = Except.ok fig → fig.traces.length = 8) := by
  intro f t v
  constructor
  · intro hmiss
    unfold Viz.control_chart_ADTK
    split
    · exact ⟨_, rfl⟩
    · rename_i bands hB
      split
      · exact ⟨_, rfl⟩
      · rename_i values hV
        split
        · exact ⟨_, rfl⟩
        · rename_i medians hM
          split
          · exact ⟨_, rfl⟩
          · rename_i ucl hU
            split
            · exact ⟨_, rfl⟩
            · rename_i lcl hL
              split
              · exact ⟨_, rfl⟩
              · rename_i violValues hVV
                split
                · exact ⟨_, rfl⟩
                · rename_i medValues hMV
                  split
                  · exact ⟨_, rfl⟩
                  · rename_i highValues hHV
                    exfalso
                    rcases hmiss with h | h | h | h | h
                    · unfold Viz.hasCol at h
                      rw [hV] at h
                      simp at h
                    · unfold Viz.hasCol at h
                      rw [hM] at h
                      simp at h
                    · unfold Viz.hasCol at h
                      rw [hU] at h
                      simp at h
                    · unfold Viz.hasCol at h
                      rw [hL] at h
                      simp at h
                    · rw [Viz.controlBands_some_hasViolation hB] at h
                      simp at h
  · intro fig hfig
    unfold Viz.control_chart_ADTK at hfig
    split at hfig
    · exact absurd hfig (by simp)
    · split at hfig
      · exact absurd hfig (by simp)
      · split at hfig
        · exact absurd hfig (by simp)
        · split at hfig
          · exact absurd hfig (by simp)
          · split at hfig
            · exact absurd hfig (by simp)
            · split at hfig
              · exact absurd hfig (by simp)
              · split at hfig
                · exact absurd hfig (by simp)
                · split at hfig
                  · exact absurd hfig (by simp)
                  · injection hfig with h
                    rw [← h]
                    rfl

/-- Witness for C9: a frame missing the `Median` column fails with an error. -/
theorem control_chart_missing_column_errors_witness :
    ∃ e, Viz.control_chart_ADTK
        ⟨[1], [("Values", [1]), ("UCL", [2]), ("LCL", [0]), ("Violation", [1/2])]⟩
        "Control Chart Example" "Actuals" = Except.error e :=
  (control_chart_missing_column_errors
    ⟨[1], [("Values", [1]), ("UCL", [2]), ("LCL", [0]), ("Violation", [1/2])]⟩
    "Control Chart Example" "Actuals").1 (Or.inr (Or.inl rfl))
